import Mathlib

/-!
Verification development for the noid-cli repository.

The Rust sources are shallowly embedded: strings are lists of Unicode
scalar values (`List Char`), byte lengths are computed with `Char.utf8Size`,
fallible operations return `Option`/`Except`, and a Rust panic is modelled
as `Option.none` (or a dedicated outcome constructor).  Machine integers
are embedded as `Nat` with explicit truncation (`% 256`, `% 2 ^ 32`) where
the Rust code casts or masks.
-/

namespace Noid

/-- Convert a Lean string literal to the character-list representation
used throughout this development. -/
def str (s : String) : List Char := s.data

/-- Unicode code point of a character, as a natural number. -/
def cp (c : Char) : Nat := c.toNat

/-- The NUL character. -/
def nulChar : Char := Char.ofNat 0

/-- The BEL character (terminates an OSC escape sequence). -/
def belChar : Char := Char.ofNat 7

/-- The ESC character that introduces ANSI escape sequences. -/
def escChar : Char := Char.ofNat 27

/-- The single-quote character. -/
def quoteChar : Char := Char.ofNat 39

/-- The backslash character. -/
def bslashChar : Char := Char.ofNat 92

/-- UTF-8 byte length of a character sequence; `s.len()` on a Rust `str`
counts bytes, not characters. -/
def utf8Len (cs : List Char) : Nat := (cs.map Char.utf8Size).sum

/-- Rust `char::is_whitespace`: the Unicode White_Space property,
enumerated exactly (it is a small finite set of code points). -/
def rustIsWhitespace (c : Char) : Bool :=
  cp c == 9 || cp c == 10 || cp c == 11 || cp c == 12 || cp c == 13 ||
  cp c == 32 || cp c == 133 || cp c == 160 || cp c == 5760 ||
  (8192 ≤ cp c && cp c ≤ 8202) || cp c == 8232 || cp c == 8233 ||
  cp c == 8239 || cp c == 8287 || cp c == 12288

/-- Drop leading Unicode whitespace (the head of Rust `str::trim`). -/
def trimLeftWS (cs : List Char) : List Char := cs.dropWhile rustIsWhitespace

/-- Rust `str::trim`: drop leading and trailing Unicode whitespace. -/
def rustTrim (cs : List Char) : List Char :=
  (trimLeftWS (trimLeftWS cs).reverse).reverse

/-- Rust `str::contains(pat)` for a string pattern: substring search. -/
def containsSub (hay pat : List Char) : Bool :=
  (List.range (hay.length + 1)).any (fun i => pat.isPrefixOf (hay.drop i))

/-- Rust `str::strip_prefix`: remove `pat` from the front when present. -/
def dropPfx (pat l : List Char) : Option (List Char) :=
  if pat.isPrefixOf l then some (l.drop pat.length) else none

/-- Rust ASCII alphanumeric test (`char::is_ascii_alphanumeric`). -/
def isAsciiAlnum (c : Char) : Bool :=
  (48 ≤ cp c && cp c ≤ 57) || (65 ≤ cp c && cp c ≤ 90) ||
  (97 ≤ cp c && cp c ≤ 122)

/-- Rust `char::is_ascii_hexdigit`. -/
def isAsciiHexdigit (c : Char) : Bool :=
  (48 ≤ cp c && cp c ≤ 57) || (65 ≤ cp c && cp c ≤ 70) ||
  (97 ≤ cp c && cp c ≤ 102)

/-- Rust `char::is_ascii_digit`. -/
def isAsciiDigit (c : Char) : Bool := 48 ≤ cp c && cp c ≤ 57

/-- Rust `char::is_ascii_alphabetic`. -/
def isAsciiAlphabetic (c : Char) : Bool :=
  (65 ≤ cp c && cp c ≤ 90) || (97 ≤ cp c && cp c ≤ 122)

/-!
## Name validation (`noid-core/src/storage.rs`, `validate_name`)

The Rust function takes `&str` and a `kind` label used only in error
messages; `name.len()` is the UTF-8 byte length, `contains`/`starts_with`
are as in Rust.  `bail!` is embedded as `Except.error`.
-/

/-- `validate_name` from `crates/noid-core/src/storage.rs`.  The `kind`
argument only decorates error messages and is omitted; messages keep the
remaining fixed text. -/
def validate_name (name : List Char) : Except (List Char) Unit :=
  if name.isEmpty then
    .error (str "name cannot be empty")
  else if 64 < utf8Len name then
    .error (str "name too long (max 64 characters)")
  else if name.contains '/' || name.contains bslashChar ||
      containsSub name (str "..") then
    .error (str "name contains invalid characters")
  else if (str ".").isPrefixOf name || (str "-").isPrefixOf name then
    .error (str "name cannot start with . or -")
  else
    .ok ()

/-!
## Network index allocation (`noid-core/src/network.rs`, `allocate_index`)

The loop `for i in 0..=MAX_NET_INDEX` returning the first `i` not contained
in `used` is embedded as `find?` over `List.range`.  (The copy of
`allocate_index` in `noid-netd/src/addressing.rs` is dead code: the
`addressing` module is imported with `#[allow(dead_code)]` and the server
path calls the `noid-core` version embedded here.)
-/

/-- `MAX_NET_INDEX` from `crates/noid-core/src/network.rs`. -/
def maxNetIndex : Nat := 16383

/-- `allocate_index` from `crates/noid-core/src/network.rs`. -/
def allocate_index (used : List Nat) : Except (List Char) Nat :=
  match (List.range (maxNetIndex + 1)).find? (fun i => !used.contains i) with
  | some i => .ok i
  | none => .error (str "no available network indices")

/-! ### Theorems for claim C4 -/

/-- Claim-side predicate, transcribed from the claim's words: the name is
accepted exactly when its byte length is in `[1, 64]`, it has no slash,
backslash or dot-dot, does not start with dot or dash, and every byte lies
in the restricted character class (taken here, per the spec examples, as
ASCII alphanumerics plus `_`, `-`, `.`): this last conjunct is what the
code does not enforce. -/
def c4ClaimAccepts (n : List Char) : Bool :=
  1 ≤ utf8Len n && utf8Len n ≤ 64 &&
  !n.contains '/' && !n.contains bslashChar && !containsSub n (str "..") &&
  !((str ".").isPrefixOf n) && !((str "-").isPrefixOf n) &&
  n.all (fun c => isAsciiAlnum c || c == '_' || c == '-' || c == '.')

/-!
## Association-list model of keyed stores

Both the VM record store (an external collaborator of the backend) and the
rate-limiter `HashMap` are keyed maps; they are modelled as association
lists with first-match lookup.
-/

/-- Map lookup (first matching key). -/
def alGet {κ α : Type} [DecidableEq κ] (st : List (κ × α)) (k : κ) :
    Option α :=
  (st.find? (fun e => decide (e.1 = k))).map (fun e => e.2)

/-- Remove every binding of a key. -/
def alRemove {κ α : Type} [DecidableEq κ] (st : List (κ × α)) (k : κ) :
    List (κ × α) :=
  st.filter (fun e => !decide (e.1 = k))

/-- Insert-or-replace a binding. -/
def alSet {κ α : Type} [DecidableEq κ] (st : List (κ × α)) (k : κ) (v : α) :
    List (κ × α) :=
  (k, v) :: alRemove st k

/-!
## Network address derivation (`noid-netd/src/addressing.rs`)

`derive_config` and `kernel_ip_param`, with `u32`/`u8` arithmetic embedded
as `Nat` plus explicit truncation: `x as u8` is `x % 256`,
`offset >> 8` is `offset / 256`, `offset & 0xFF` is `offset % 256`, and
`u8::wrapping_add` is addition mod 256.  `format!("{}")` on an unsigned
integer is decimal (`Nat.toDigits 10`), `format!("{:02X}")` on a `u8` is
exactly two upper-case hex digits.
-/

/-- Decimal rendering of an unsigned integer (Rust `{}` formatting). -/
def natDec (n : Nat) : List Char := Nat.toDigits 10 n

/-- One upper-case hexadecimal digit. -/
def hexUpperDigit (n : Nat) : Char :=
  if n < 10 then Char.ofNat (48 + n) else Char.ofNat (65 + (n - 10))

/-- Rust `{:02X}` formatting of a `u8` value: two upper-case hex digits. -/
def fmtHex2 (n : Nat) : List Char :=
  [hexUpperDigit (n / 16 % 16), hexUpperDigit (n % 16)]

/-- `NetConfig` from `crates/noid-netd/src/addressing.rs`. -/
structure NetConfig where
  tap_name : List Char
  host_ip : List Char
  guest_ip : List Char
  guest_mac : List Char
  index : Nat

/-- `derive_config` from `crates/noid-netd/src/addressing.rs`. -/
def derive_config (index : Nat) : NetConfig :=
  let offset := index * 4 % 4294967296
  let hi := offset / 256 % 256
  let lo := offset % 256
  let host_ip := str "172.16." ++ natDec hi ++ str "." ++ natDec ((lo + 1) % 256)
  let guest_ip := str "172.16." ++ natDec hi ++ str "." ++ natDec ((lo + 2) % 256)
  let guest_mac := str "AA:FC:00:00:" ++ fmtHex2 (index / 256 % 256) ++
    str ":" ++ fmtHex2 (index % 256)
  let tap_name := str "noid" ++ natDec index
  ⟨tap_name, host_ip, guest_ip, guest_mac, index⟩

/-- `kernel_ip_param` from `crates/noid-netd/src/addressing.rs`. -/
def kernel_ip_param (config : NetConfig) : List Char :=
  str "ip=" ++ config.guest_ip ++ str "::" ++ config.host_ip ++
  str ":255.255.255.252::eth0:off"

/-!
## VM destroy (`noid-core/src/backend.rs` and `noid-server/src/handlers.rs`)

`FirecrackerBackend::destroy` fetches the record and errors with
`VM '<name>' not found` when it is absent; otherwise it kills the VMM
process, tears down the TAP (log-and-continue), deletes the VM directory
and deletes the record.  The process/TAP/directory effects are host-side
and do not touch the record store, so the embedding tracks the store only.
The HTTP handler `destroy_vm` maps an `Ok` to 204, maps any error whose
message contains `not found` to 204, and otherwise delegates to
`map_backend_error` (404 / 409 / 500 by message substring).
-/

/-- The fields of a VM record consulted by `destroy`. -/
structure VmRecord where
  pid : Option Nat
  tap_name : Option (List Char)

/-- The record store, keyed by `(user_id, name)`. -/
abbrev VmStore := List ((List Char × List Char) × VmRecord)

/-- `db().get_vm(user_id, name)`. -/
def get_vm (db : VmStore) (user_id name : List Char) : Option VmRecord :=
  alGet db (user_id, name)

/-- `db().delete_vm(user_id, name)`. -/
def delete_vm (db : VmStore) (user_id name : List Char) : VmStore :=
  alRemove db (user_id, name)

/-- `FirecrackerBackend::destroy` from `crates/noid-core/src/backend.rs`,
restricted to its effect on the record store and its result. -/
def backend_destroy (db : VmStore) (user_id name : List Char) :
    Except (List Char) VmStore :=
  match get_vm db user_id name with
  | none => .error (str "VM " ++ [quoteChar] ++ name ++ [quoteChar] ++
      str " not found")
  | some _ => .ok (delete_vm db user_id name)

/-- `map_backend_error` from `crates/noid-server/src/handlers.rs`
(the HTTP status it chooses). -/
def map_backend_error (e : List Char) : Nat :=
  if containsSub e (str "not found") then 404
  else if containsSub e (str "already exists") then 409
  else 500

/-- `destroy_vm` from `crates/noid-server/src/handlers.rs`: the HTTP
status returned and the resulting record store. -/
def destroy_vm (db : VmStore) (user_id name : List Char) : Nat × VmStore :=
  match backend_destroy db user_id name with
  | .ok db2 => (204, db2)
  | .error e =>
    if containsSub e (str "not found") then (204, db)
    else (map_backend_error e, db)

/-!
## Authentication rate limiter (`noid-core/src/auth.rs`)

`RateLimiter` keeps a `HashMap<String, RateEntry>`; time is a monotonic
clock read in whole seconds (`Instant::elapsed().as_secs()`), embedded by
passing the current time `now : Nat` (seconds) explicitly.  `check`
removes an entry older than the window and admits, rejects when the
entry has accumulated `MAX_FAILURES` failures inside the window, and
admits otherwise; `record_failure` starts a fresh entry (or resets an
expired one) and increments its failure count.
-/

/-- `MAX_FAILURES` from `crates/noid-core/src/auth.rs`. -/
def maxFailures : Nat := 10

/-- `WINDOW_SECS` from `crates/noid-core/src/auth.rs`. -/
def windowSecs : Nat := 60

/-- `RateEntry` from `crates/noid-core/src/auth.rs`. -/
structure RateEntry where
  failures : Nat
  window_start : Nat

/-- The rate limiter's map from bucket key to entry. -/
abbrev RateState := List (List Char × RateEntry)

/-- `RateLimiter::check` (`crates/noid-core/src/auth.rs`): admit or
reject a key at time `now`, returning the updated map on admit. -/
def rlCheck (st : RateState) (key : List Char) (now : Nat) :
    Except (List Char) RateState :=
  match alGet st key with
  | some entry =>
    if windowSecs < now - entry.window_start then
      .ok (alRemove st key)
    else if maxFailures ≤ entry.failures then
      .error (str "too many authentication failures, try again later")
    else
      .ok st
  | none => .ok st

/-- `RateLimiter::record_failure` (`crates/noid-core/src/auth.rs`). -/
def rlRecordFailure (st : RateState) (key : List Char) (now : Nat) :
    RateState :=
  let entry : RateEntry := match alGet st key with
    | none => { failures := 0, window_start := now }
    | some e => e
  let entry2 := if windowSecs < now - entry.window_start then
      { failures := 0, window_start := now }
    else entry
  alSet st key { entry2 with failures := entry2.failures + 1 }

/-- Fold `record_failure` over a list of failure times. -/
def rlRecordAll (st : RateState) (key : List Char) (times : List Nat) :
    RateState :=
  times.foldl (fun s t => rlRecordFailure s key t) st

/-!
## Checkpoint (`noid-core/src/backend.rs`, `FirecrackerBackend::checkpoint`)

After fetching the record the code runs, in order and each with `?`
(early return on error): `pause_vm`, `create_fc_snapshot`,
`storage::create_snapshot`, `resume_vm`, `insert_checkpoint`.  The
embedding records which external calls are attempted, driven by an
environment giving each call's outcome, so the claim about resume being
attempted on every path is a statement about the produced trace.
-/

/-- The external calls `checkpoint` can attempt, in source order. -/
inductive CkptStep where
  | pause
  | fcSnapshot
  | copySnapshot
  | resume
  | insertRecord
deriving DecidableEq

/-- Outcome of each external call, supplied as an oracle. -/
structure CkptEnv where
  vmFound : Bool
  pauseOk : Bool
  fcSnapshotOk : Bool
  copySnapshotOk : Bool
  resumeOk : Bool
  insertOk : Bool

/-- `FirecrackerBackend::checkpoint`: result plus the ordered trace of
attempted external calls.  Each `?` in the source is an early return
carrying the trace accumulated so far. -/
def checkpoint (e : CkptEnv) : Except (List Char) Unit × List CkptStep :=
  if !e.vmFound then (.error (str "VM not found"), [])
  else if !e.pauseOk then
    (.error (str "failed to pause VM"), [CkptStep.pause])
  else if !e.fcSnapshotOk then
    (.error (str "failed to create snapshot"),
      [CkptStep.pause, CkptStep.fcSnapshot])
  else if !e.copySnapshotOk then
    (.error (str "failed to snapshot VM directory"),
      [CkptStep.pause, CkptStep.fcSnapshot, CkptStep.copySnapshot])
  else if !e.resumeOk then
    (.error (str "failed to resume VM"),
      [CkptStep.pause, CkptStep.fcSnapshot, CkptStep.copySnapshot,
       CkptStep.resume])
  else if !e.insertOk then
    (.error (str "insert checkpoint failed"),
      [CkptStep.pause, CkptStep.fcSnapshot, CkptStep.copySnapshot,
       CkptStep.resume, CkptStep.insertRecord])
  else
    (.ok (),
      [CkptStep.pause, CkptStep.fcSnapshot, CkptStep.copySnapshot,
       CkptStep.resume, CkptStep.insertRecord])

/-!
## ANSI stripping (`noid-core/src/exec.rs`, `strip_ansi`)

The Rust function walks the characters with a peekable iterator.  A CSI
sequence (`ESC [`) is consumed up to and including its final byte
(ASCII-alphabetic, `~`, `h` or `l`); an OSC sequence (`ESC ]`) up to and
including BEL or `ESC \`; any other `ESC x` consumes one following
character; incomplete sequences at end of input are tolerated.
-/

/-- Consume a CSI sequence body up to and including its final byte. -/
def dropCSI : List Char → List Char
  | [] => []
  | ch :: r =>
    if isAsciiAlphabetic ch || ch = '~' || ch = 'h' || ch = 'l' then r
    else dropCSI r

/-- Consume an OSC sequence body up to and including BEL or `ESC \`. -/
def dropOSC : List Char → List Char
  | [] => []
  | ch :: r =>
    if ch = belChar then r
    else if ch = escChar then
      match r with
      | [] => []
      | d :: r2 => if d = bslashChar then r2 else dropOSC r
    else dropOSC r

/-- Body of `strip_ansi`, driven by a fuel parameter so that the
definition is structural and computes; each loop iteration consumes at
least one input character, so fuel `l.length` is always enough. -/
def stripAnsiGo : Nat → List Char → List Char
  | 0, _ => []
  | _ + 1, [] => []
  | fuel + 1, c :: rest =>
    if c = escChar then
      match rest with
      | [] => []
      | d :: rest2 =>
        if d = '[' then stripAnsiGo fuel (dropCSI rest2)
        else if d = ']' then stripAnsiGo fuel (dropOSC rest2)
        else stripAnsiGo fuel rest2
    else c :: stripAnsiGo fuel rest

/-- `strip_ansi` from `crates/noid-core/src/exec.rs`. -/
def strip_ansi (l : List Char) : List Char := stripAnsiGo l.length l

/-!
## Exec-marker filtering (`noid-server/src/console.rs`)

`is_exec_marker_line` receives the raw bytes of one console line, decodes
them with `String::from_utf8_lossy` (total; the embedding receives the
decoded character sequence), strips ANSI, trims, strips the
`NOID_EXEC_` marker, and then tests `rest.len() < 8` (bytes) followed
by the byte slice `&rest[..8]` — which panics when byte 8 falls inside a
multi-byte character.  The panic is embedded as `none`.
-/

/-- Split a character sequence at a byte offset, as Rust `&s[..n]` /
`&s[n..]` slicing does: `none` when `n` overruns the string or does not
fall on a character boundary (a Rust panic). -/
def byteSplitAt (n : Nat) : List Char → Option (List Char × List Char)
  | [] => if n = 0 then some ([], []) else none
  | c :: r =>
    if n = 0 then some ([], c :: r)
    else if c.utf8Size ≤ n then
      (byteSplitAt (n - c.utf8Size) r).map (fun p => (c :: p.1, p.2))
    else none

/-- `EXEC_MARKER_PREFIX` from `crates/noid-core/src/exec.rs`. -/
def execMarkerPfx : List Char := str "NOID_EXEC_"

/-- `is_exec_marker_line` from `crates/noid-server/src/console.rs`:
`some b` is a normal return of `b`, `none` is a panic in the
`&rest[..8]` slice. -/
def is_exec_marker_line (line : List Char) : Option Bool :=
  let cleaned := strip_ansi line
  let trimmed := rustTrim cleaned
  match dropPfx execMarkerPfx trimmed with
  | none => some false
  | some rest =>
    if utf8Len rest < 8 then some false
    else match byteSplitAt 8 rest with
      | none => none
      | some (idPart, after_id) =>
        if !idPart.all isAsciiHexdigit then some false
        else if after_id.isEmpty then some true
        else if after_id = str "_END" then some true
        else match dropPfx (str "_EXIT") after_id with
          | some digits => some (!digits.isEmpty && utf8Len digits ≤ 4 &&
              digits.all isAsciiDigit)
          | none => some false

/-- `slice::split_inclusive` on the newline byte, at character level
(valid UTF-8 never contains the `\n` byte inside a multi-byte
character). -/
def splitIncGo (cur : List Char) : List Char → List (List Char)
  | [] => if cur.isEmpty then [] else [cur.reverse]
  | c :: r =>
    if c = '\n' then (cur.reverse ++ [c]) :: splitIncGo [] r
    else splitIncGo (c :: cur) r

/-- Complete-line splitting used by the console reader thread. -/
def splitInclusiveNl (cs : List Char) : List (List Char) := splitIncGo [] cs

/-- The filtering loop of the console reader thread
(`handle_console_ws`, `crates/noid-server/src/console.rs` lines 113-119):
marker lines are dropped, other lines are appended unchanged; a panic in
the marker test (`none`) kills the reader thread, embedded as `none`. -/
def filterCompleteLines : List (List Char) → Option (List Char)
  | [] => some []
  | l :: r =>
    match is_exec_marker_line l with
    | none => none
    | some true => filterCompleteLines r
    | some false => (filterCompleteLines r).map (fun out => l ++ out)

/-- Claim-side marker pattern, transcribed from the spec: after
ANSI-strip and trim the line equals `NOID_EXEC_<8 hex>`,
`NOID_EXEC_<8 hex>_END`, or `NOID_EXEC_<8 hex>_EXIT<1-4 digits>`. -/
def specMarkerLine (line : List Char) : Bool :=
  let t := rustTrim (strip_ansi line)
  match dropPfx execMarkerPfx t with
  | none => false
  | some r =>
    8 ≤ r.length && (r.take 8).all isAsciiHexdigit &&
    (let tail := r.drop 8
     tail.isEmpty || tail = str "_END" ||
       (match dropPfx (str "_EXIT") tail with
        | some d => !d.isEmpty && d.length ≤ 4 && d.all isAsciiDigit
        | none => false))

/-!
## Exec capture (`noid-core/src/exec.rs`)

`parse_marked_output` strips ANSI, normalizes `\r\n` and `\r` to `\n`,
then scans lines: it ignores lines until one trims to the start marker,
collects lines until one trims to the end marker (returning the collected
lines joined with `\n` and trimmed), and treats lines whose trimmed form
starts with the exit marker as exit-code carriers (last one wins,
`parse::<i32>().ok()`).  `exec_via_serial` then computes
`truncated = raw.len() > 1 MiB` and keeps `raw[..1 MiB]` when truncated —
a byte slice that panics when the boundary splits a character.
-/

/-- `MAX_OUTPUT_BYTES` from `crates/noid-core/src/exec.rs`. -/
def maxOutputBytes : Nat := 1048576

/-- `str::replace("\r\n", "\n")`: left-to-right, non-overlapping. -/
def replaceCRLF : List Char → List Char
  | [] => []
  | [c] => [c]
  | c :: d :: r =>
    if c = '\r' && d = '\n' then '\n' :: replaceCRLF r
    else c :: replaceCRLF (d :: r)

/-- `str::replace('\r', "\n")` (single-character pattern). -/
def replaceCR (cs : List Char) : List Char :=
  cs.map (fun c => if c = '\r' then '\n' else c)

/-- The two replacements of `parse_marked_output`, in source order. -/
def normalizeNewlines (cs : List Char) : List Char :=
  replaceCR (replaceCRLF cs)

/-- Split on `\n` keeping empty pieces (`n` separators yield `n + 1`
pieces). -/
def splitOnNl : List Char → List (List Char)
  | [] => [[]]
  | c :: r =>
    if c = '\n' then [] :: splitOnNl r
    else match splitOnNl r with
      | [] => [[c]]
      | p :: ps => (c :: p) :: ps

/-- Drop one trailing `\r` (per-line step of Rust `str::lines`). -/
def stripTrailCR (l : List Char) : List Char :=
  if l.getLast? = some '\r' then l.dropLast else l

/-- Rust `str::lines`: split on `\n`, drop a final empty piece, strip one
trailing `\r` from each line. -/
def rustLines (cs : List Char) : List (List Char) :=
  let ps := splitOnNl cs
  let ps2 := if ps.getLast? = some ([] : List Char) then ps.dropLast else ps
  ps2.map stripTrailCR

/-- A nonempty all-digit string parsed as a natural number. -/
def parseDigits (l : List Char) : Option Nat :=
  if !l.isEmpty && l.all isAsciiDigit then
    some (l.foldl (fun a c => a * 10 + (cp c - 48)) 0)
  else none

/-- Rust `str::parse::<i32>()`: optional sign, ASCII digits, rejected on
empty digits or i32 overflow. -/
def parseI32 (l : List Char) : Option Int :=
  match l with
  | '+' :: r => (parseDigits r).bind
      (fun n => if n ≤ 2147483647 then some (n : Int) else none)
  | '-' :: r => (parseDigits r).bind
      (fun n => if n ≤ 2147483648 then some (-(n : Int)) else none)
  | _ => (parseDigits l).bind
      (fun n => if n ≤ 2147483647 then some (n : Int) else none)

/-- Join with `\n` (Rust `Vec::join("\n")`). -/
def joinNl (ls : List (List Char)) : List Char :=
  List.intercalate [ '\n' ] ls

/-- The line-scanning loop of `parse_marked_output`: `collecting`, the
collected lines and the running exit code are the loop state. -/
def pmoGo (mStart mEnd mExit : List Char) :
    List (List Char) → Bool → List (List Char) → Option Int →
    Option (List Char × Option Int)
  | [], _, _, _ => none
  | line :: rest, collecting, acc, exitCode =>
    let trimmed := rustTrim line
    if !collecting then
      if trimmed = mStart then pmoGo mStart mEnd mExit rest true acc exitCode
      else pmoGo mStart mEnd mExit rest false acc exitCode
    else if trimmed = mEnd then
      some (rustTrim (joinNl acc), exitCode)
    else match dropPfx mExit trimmed with
      | some r => pmoGo mStart mEnd mExit rest true acc (parseI32 (rustTrim r))
      | none => pmoGo mStart mEnd mExit rest true (acc ++ [line]) exitCode

/-- `parse_marked_output` from `crates/noid-core/src/exec.rs`. -/
def parse_marked_output (serialChunk mStart mEnd mExit : List Char) :
    Option (List Char × Option Int) :=
  let cleaned := strip_ansi serialChunk
  let normalized := normalizeNewlines cleaned
  pmoGo mStart mEnd mExit (rustLines normalized) false [] none

/-- Outcome of processing one polled serial chunk in `exec_via_serial`:
no markers yet (`nomatch`, the poll loop continues), a panic in the
truncating byte slice (`panicTrunc`), or a normal return carrying
`(output, exit_code, timed_out, truncated)`. -/
inductive ExecOutcome where
  | nomatch : ExecOutcome
  | panicTrunc : ExecOutcome
  | done : List Char → Option Int → Bool → Bool → ExecOutcome
deriving DecidableEq

/-- The marker-parse plus truncation step of `exec_via_serial`
(`crates/noid-core/src/exec.rs` lines 129-139). -/
def execCaptureChunk (chunk mStart mEnd mExit : List Char) : ExecOutcome :=
  match parse_marked_output chunk mStart mEnd mExit with
  | none => .nomatch
  | some (raw, exitCode) =>
    if maxOutputBytes < utf8Len raw then
      match byteSplitAt maxOutputBytes raw with
      | some p => .done p.1 exitCode false true
      | none => .panicTrunc
    else .done raw exitCode false false

/-- The exit code after scanning `mid`: each line whose trimmed form
starts with the exit marker overwrites it with the parse of the rest. -/
def exitFold (mExit : List Char) (init : Option Int)
    (mid : List (List Char)) : Option Int :=
  mid.foldl (fun acc l =>
    match dropPfx mExit (rustTrim l) with
    | some r => parseI32 (rustTrim r)
    | none => acc) init

/-!
## Shell escaping (`noid-core/src/exec.rs`, `shell_escape`)

`shell_escape` panics on NUL (modelled as `none`), returns `''` for the
empty string, returns the string verbatim when every character satisfies
`char::is_alphanumeric() || c == '_' || c == '-' || c == '.' || c == '/'`,
and otherwise wraps it in single quotes with every embedded single quote
replaced by quote-backslash-quote-quote.

`char::is_alphanumeric` is the Unicode Alphabetic/Number property of the
Rust standard library, not the ASCII class: the model implements it
exactly on the Latin-1 range (all characters any theorem or witness below
touches) — ASCII digits and letters plus the Latin-1 letters and numeric
signs (U+00AA, U+00B2, U+00B3, U+00B5, U+00B9, U+00BA, U+00BC-U+00BE,
U+00C0-U+00D6, U+00D8-U+00F6, U+00F8-U+00FF).  Code points above U+00FF
are outside the model.
-/

/-- Rust `char::is_alphanumeric`, restricted to the Latin-1 range (see
the section comment). -/
def rustIsAlphanumeric (c : Char) : Bool :=
  (48 ≤ cp c && cp c ≤ 57) || (65 ≤ cp c && cp c ≤ 90) ||
  (97 ≤ cp c && cp c ≤ 122) ||
  cp c == 170 || cp c == 178 || cp c == 179 || cp c == 181 ||
  cp c == 185 || cp c == 186 || (188 ≤ cp c && cp c ≤ 190) ||
  (192 ≤ cp c && cp c ≤ 214) || (216 ≤ cp c && cp c ≤ 246) ||
  (248 ≤ cp c && cp c ≤ 255)

/-- The verbatim test of `shell_escape`: alphanumeric or `_`, `-`, `.`,
`/` (code points 95, 45, 46, 47). -/
def shellVerbatimChar (c : Char) : Bool :=
  rustIsAlphanumeric c || cp c == 95 || cp c == 45 || cp c == 46 ||
  cp c == 47

/-- `s.replace('\'', "'\\''")`: each single quote becomes
quote-backslash-quote-quote. -/
def quoteBody (s : List Char) : List Char :=
  s.flatMap (fun c =>
    if c = quoteChar then [quoteChar, bslashChar, quoteChar, quoteChar]
    else [c])

/-- `shell_escape` from `crates/noid-core/src/exec.rs`; the NUL assert is
modelled as `none`. -/
def shell_escape (s : List Char) : Option (List Char) :=
  if s.contains nulChar then none
  else if s.isEmpty then some [quoteChar, quoteChar]
  else if s.all shellVerbatimChar then some s
  else some (quoteChar :: quoteBody s ++ [quoteChar])

/-- Claim-side predicate: non-empty, all characters ASCII alphanumeric
or underscore, dot, slash, dash. -/
def matchesC1Class (s : List Char) : Bool :=
  !s.isEmpty && s.all (fun c => isAsciiAlnum c || cp c == 95 ||
    cp c == 46 || cp c == 47 || cp c == 45)

/-!
### A conservative POSIX-shell word lexer

To state the claim's safety consequence (the escaped string is read back
by the shell as a single literal word, with no metacharacter active) the
development includes a small shell lexer: `lexSh inQ esc input` reads
`input` as one word, `none` meaning the input is not exactly one word
made of literal characters (an unquoted metacharacter, a word break, or
an unterminated quote).  Characters special to POSIX `sh` are
blacklisted conservatively.
-/

/-- Characters the lexer refuses to treat as literal outside quotes
(whitespace, operators, expansion and glob characters). -/
def shSpecial (c : Char) : Bool :=
  cp c == 9 || cp c == 10 || cp c == 13 || cp c == 32 ||
  cp c == 33 || cp c == 34 || cp c == 35 || cp c == 36 || cp c == 37 ||
  cp c == 38 || cp c == 40 || cp c == 41 || cp c == 42 ||
  cp c == 59 || cp c == 60 || cp c == 61 || cp c == 62 || cp c == 63 ||
  cp c == 91 || cp c == 93 || cp c == 94 || cp c == 96 ||
  cp c == 123 || cp c == 124 || cp c == 125 || cp c == 126

/-- Read the whole input as one shell word.  `inQ`: inside single
quotes; `esc`: immediately after an unquoted backslash. -/
def lexSh : Bool → Bool → List Char → Option (List Char)
  | inQ, esc, [] => if esc || inQ then none else some []
  | inQ, esc, c :: r =>
    if esc then (lexSh false false r).map (fun w => c :: w)
    else if inQ then
      if c = quoteChar then lexSh false false r
      else (lexSh true false r).map (fun w => c :: w)
    else if c = quoteChar then lexSh true false r
    else if c = bslashChar then lexSh false true r
    else if shSpecial c then none
    else (lexSh false false r).map (fun w => c :: w)

end Noid

namespace Noid

/-- C4 (counterexample): the name `a;b` contains `;`, which the claim says
must be rejected, yet `validate_name` accepts it: the code enforces no
character-class restriction. -/
theorem c4_counterexample :
    validate_name (str "a;b") = .ok () ∧ (str "a;b").contains ';' = true ∧
    c4ClaimAccepts (str "a;b") = false := by
  refine ⟨by rfl, by decide, by decide⟩

/-- C4 (amended): name validation accepts `n` exactly when
`1 ≤ |n| ≤ 64` (bytes), `n` contains no `/`, `\` or `..`, and `n` does not
start with `.` or `-`.  No character-class restriction is enforced: names
containing spaces, `;` or `$` pass validation. -/
theorem c4_amended (n : List Char) :
    validate_name n = .ok () ↔
      (1 ≤ utf8Len n ∧ utf8Len n ≤ 64 ∧
       n.contains '/' = false ∧ n.contains bslashChar = false ∧
       containsSub n (str "..") = false ∧
       (str ".").isPrefixOf n = false ∧ (str "-").isPrefixOf n = false) := by
  have hlen0 : n.isEmpty = true → utf8Len n = 0 := by
    intro h
    rcases n with _ | _
    · rfl
    · simp at h
  have hpos : n.isEmpty = false → 1 ≤ utf8Len n := by
    intro h
    rcases n with _ | ⟨c, r⟩
    · simp at h
    · have := Char.utf8Size_pos c
      simp [utf8Len]
      omega
  unfold validate_name
  split_ifs with h1 h2 h3 h4
  · constructor
    · intro h
      simp at h
    · rintro ⟨ha, _⟩
      have := hlen0 h1
      omega
  · constructor
    · intro h
      simp at h
    · rintro ⟨_, hb, _⟩
      omega
  · constructor
    · intro h
      simp at h
    · rintro ⟨_, _, hc, hd, he, _⟩
      rw [hc, hd, he] at h3
      simp at h3
  · constructor
    · intro h
      simp at h
    · rintro ⟨_, _, _, _, _, hf, hg⟩
      rw [hf, hg] at h4
      simp at h4
  · have h3' := h3
    have h4' := h4
    simp only [Bool.or_eq_true, not_or, Bool.not_eq_true] at h3' h4'
    constructor
    · intro _
      exact ⟨hpos (by simpa using h1), by omega, h3'.1.1, h3'.1.2, h3'.2,
        h4'.1, h4'.2⟩
    · intro _
      rfl

/-- C4 (witness for the amended theorem): instantiated at the concrete
name `my_vm01`. -/
theorem c4_amended_witness : validate_name (str "my_vm01") = .ok () := by
  exact (c4_amended (str "my_vm01")).mpr (by refine ⟨by decide, by decide,
    by decide, by decide, by decide, by decide, by decide⟩)

/-! ### Theorems for claim C5 -/

/-- C5: `allocate_index` returns the minimum free index when some index
`≤ 16383` is free, and fails when all of `[0, 16383]` are used. -/
theorem c5_allocate_index_min (used : List Nat) :
    ((∃ i, i ≤ maxNetIndex ∧ used.contains i = false) →
      ∃ m, allocate_index used = .ok m ∧ used.contains m = false ∧
        ∀ j, j < m → used.contains j = true) ∧
    ((∀ i, i ≤ maxNetIndex → used.contains i = true) →
      allocate_index used = .error (str "no available network indices")) := by
  constructor
  · rintro ⟨i, hi, hfree⟩
    rcases hfind : (List.range (maxNetIndex + 1)).find?
        (fun x => !used.contains x) with _ | m
    · exfalso
      have := List.find?_range_eq_none.mp hfind i (by omega)
      simp at this hfree
      exact hfree this
    · rcases List.find?_range_eq_some.mp hfind with ⟨h1, _, h3⟩
      refine ⟨m, ?_, ?_, ?_⟩
      · unfold allocate_index
        rw [hfind]
      · simpa using h1
      · intro j hj
        have := h3 j hj
        simpa using this
  · intro hall
    have hnone : (List.range (maxNetIndex + 1)).find?
        (fun x => !used.contains x) = none := by
      rw [List.find?_range_eq_none]
      intro x hx
      have := hall x (by omega)
      simpa using this
    unfold allocate_index
    rw [hnone]

/-- C5 (witness): with `U = {0, 1, 3}` the allocator returns 2 (the
minimum free index), and with every index of `[0, 16383]` used it fails. -/
theorem c5_allocate_index_min_witness :
    (∃ m, allocate_index [0, 1, 3] = .ok m ∧
      ([0, 1, 3] : List Nat).contains m = false ∧
      ∀ j, j < m → ([0, 1, 3] : List Nat).contains j = true) ∧
    allocate_index (List.range 16384) =
      .error (str "no available network indices") := by
  constructor
  · exact (c5_allocate_index_min [0, 1, 3]).1 ⟨2, by decide, by decide⟩
  · exact (c5_allocate_index_min (List.range 16384)).2 (by
      intro i hi
      simp [List.contains, List.elem_eq_mem, List.mem_range, maxNetIndex] at *
      omega)

theorem alGet_remove {κ α : Type} [DecidableEq κ]
    (st : List (κ × α)) (k : κ) : alGet (alRemove st k) k = none := by
  unfold alGet alRemove
  have hnone : (st.filter (fun e => !decide (e.1 = k))).find?
      (fun e => decide (e.1 = k)) = none := by
    rw [List.find?_eq_none]
    intro x hx
    have := (List.mem_filter.mp hx).2
    simpa using this
  rw [hnone]
  rfl

theorem alGet_set {κ α : Type} [DecidableEq κ]
    (st : List (κ × α)) (k : κ) (v : α) : alGet (alSet st k v) k = some v := by
  unfold alGet alSet
  simp [List.find?]

/-- A pattern that ends the haystack is found by `containsSub`. -/
theorem containsSub_append_self (a pat : List Char) :
    containsSub (a ++ pat) pat = true := by
  unfold containsSub
  rw [List.any_eq_true]
  refine ⟨a.length, ?_, ?_⟩
  · rw [List.mem_range, List.length_append]
    omega
  · rw [List.drop_left]
    simp [List.isPrefixOf_iff_prefix]

/-! ### Theorems for claim C8 -/

/-- C8: for every index in `[0, 16383]` the derived network configuration
is `noid<i>`, host `172.16.hi.(lo+1)`, guest `172.16.hi.(lo+2)` with
`hi = 4i div 256`, `lo = 4i mod 256`, MAC `AA:FC:00:00` followed by the
bytes `i >> 8` and `i & 0xff` in hex, and the kernel boot parameter is
`ip=<guest>::<host>:255.255.255.252::eth0:off`. -/
theorem c8_derive_config (i : Nat) (h : i ≤ 16383) :
    derive_config i =
      ⟨str "noid" ++ natDec i,
       str "172.16." ++ natDec (4 * i / 256) ++ str "." ++
         natDec (4 * i % 256 + 1),
       str "172.16." ++ natDec (4 * i / 256) ++ str "." ++
         natDec (4 * i % 256 + 2),
       str "AA:FC:00:00:" ++ fmtHex2 (i / 256) ++ str ":" ++ fmtHex2 (i % 256),
       i⟩ ∧
    kernel_ip_param (derive_config i) =
      str "ip=" ++ (derive_config i).guest_ip ++ str "::" ++
        (derive_config i).host_ip ++ str ":255.255.255.252::eth0:off" := by
  have h0 : i * 4 % 4294967296 = 4 * i := by omega
  have h1 : 4 * i / 256 % 256 = 4 * i / 256 := by omega
  have h2 : (4 * i % 256 + 1) % 256 = 4 * i % 256 + 1 := by omega
  have h3 : (4 * i % 256 + 2) % 256 = 4 * i % 256 + 2 := by omega
  have h4 : i / 256 % 256 = i / 256 := by omega
  constructor
  · dsimp only [derive_config]
    rw [h0, h1, h2, h3, h4]
  · rfl

/-- C8 (witness): the claim's concrete instance, `derive(64)`. -/
theorem c8_derive_config_witness :
    derive_config 64 = ⟨str "noid64", str "172.16.1.1", str "172.16.1.2",
      str "AA:FC:00:00:00:40", 64⟩ ∧
    kernel_ip_param (derive_config 64) =
      str "ip=172.16.1.2::172.16.1.1:255.255.255.252::eth0:off" := by
  have h := c8_derive_config 64 (by omega)
  refine ⟨h.1.trans ?_, h.2.trans ?_⟩
  · rfl
  · rfl

/-! ### Theorems for claim C3 -/

/-- C3: destroying a VM whose record is absent is reported as success
(HTTP 204) with the store unchanged, and two consecutive destroys both
report success. -/
theorem c3_destroy_idempotent (db : VmStore) (user_id name : List Char) :
    (get_vm db user_id name = none → destroy_vm db user_id name = (204, db)) ∧
    (destroy_vm db user_id name).1 = 204 ∧
    (destroy_vm (destroy_vm db user_id name).2 user_id name).1 = 204 := by
  have hmsg : containsSub (str "VM " ++ [quoteChar] ++ name ++ [quoteChar] ++
      str " not found") (str "not found") = true := by
    have : str "VM " ++ [quoteChar] ++ name ++ [quoteChar] ++
        str " not found" =
        (str "VM " ++ [quoteChar] ++ name ++ [quoteChar] ++ [' ']) ++
          str "not found" := by
      simp [str]
    rw [this]
    exact containsSub_append_self _ _
  have habsent1 : ∀ db2 : VmStore, get_vm db2 user_id name = none →
      (destroy_vm db2 user_id name).1 = 204 := by
    intro db2 h
    unfold destroy_vm backend_destroy
    rw [h]
    dsimp only
    rw [if_pos hmsg]
  have habsent : get_vm db user_id name = none →
      destroy_vm db user_id name = (204, db) := by
    intro h
    unfold destroy_vm backend_destroy
    rw [h]
    dsimp only
    rw [if_pos hmsg]
  refine ⟨habsent, ?_, ?_⟩
  · rcases hget : get_vm db user_id name with _ | rec
    · rw [habsent hget]
    · unfold destroy_vm backend_destroy
      rw [hget]
  · rcases hget : get_vm db user_id name with _ | rec
    · rw [habsent hget]
      rw [habsent hget]
    · have hfst : destroy_vm db user_id name =
          (204, delete_vm db user_id name) := by
        unfold destroy_vm backend_destroy
        rw [hget]
      rw [hfst]
      have hgone : get_vm (delete_vm db user_id name) user_id name = none :=
        alGet_remove db (user_id, name)
      exact habsent1 _ hgone

/-- C3 (witness): destroying a VM in an empty store reports 204 and leaves
the store empty; destroying an existing VM also reports 204. -/
theorem c3_destroy_idempotent_witness :
    destroy_vm ([] : VmStore) (str "alice") (str "vm1") = (204, []) ∧
    (destroy_vm [((str "alice", str "vm1"),
      ⟨some 42, some (str "noid0")⟩)] (str "alice") (str "vm1")).1 = 204 := by
  refine ⟨(c3_destroy_idempotent [] (str "alice") (str "vm1")).1 (by rfl), ?_⟩
  exact (c3_destroy_idempotent [((str "alice", str "vm1"),
    ⟨some 42, some (str "noid0")⟩)] (str "alice") (str "vm1")).2.1

/-- Recording failures inside the window accumulates the count and keeps
the window start. -/
theorem rlRecordAll_inside (key : List Char) (t0 : Nat) :
    ∀ (times : List Nat) (st : RateState) (k : Nat),
      alGet st key = some ⟨k, t0⟩ →
      (∀ t ∈ times, t - t0 ≤ windowSecs) →
      alGet (rlRecordAll st key times) key = some ⟨k + times.length, t0⟩ := by
  intro times
  induction times with
  | nil => intro st k hget _; simpa using hget
  | cons t ts ih =>
    intro st k hget hwin
    have hstep : rlRecordFailure st key t =
        alSet st key ⟨k + 1, t0⟩ := by
      unfold rlRecordFailure
      rw [hget]
      have : ¬ (windowSecs < t - t0) := by
        have := hwin t (by simp)
        omega
      simp only [this, if_false, ite_false]
    have : rlRecordAll st key (t :: ts) =
        rlRecordAll (alSet st key ⟨k + 1, t0⟩) key ts := by
      unfold rlRecordAll
      rw [List.foldl_cons, hstep]
    rw [this]
    have := ih (alSet st key ⟨k + 1, t0⟩) (k + 1)
      (alGet_set st key ⟨k + 1, t0⟩) (fun x hx => hwin x (by simp [hx]))
    rw [this]
    congr 1
    simp
    omega

/-! ### Theorems for claim C9 -/

/-- C9: starting from a state with no entry for `key`, record one failure
at `t0` and then further failures at `times`, all within the 60-second
window started at `t0`.  While `now` is still inside the window, `check`
admits when fewer than 10 failures were recorded and rejects with the
distinct rate-limit error when 10 or more were recorded; once the window
has rolled over (`now - t0 > 60`), `check` admits again (and drops the
stale entry). -/
theorem c9_rate_limiter (st : RateState) (key : List Char)
    (t0 now : Nat) (times : List Nat)
    (hempty : alGet st key = none)
    (hwin : ∀ t ∈ times, t - t0 ≤ windowSecs) :
    (times.length + 1 < maxFailures → now - t0 ≤ windowSecs →
      rlCheck (rlRecordAll st key (t0 :: times)) key now =
        .ok (rlRecordAll st key (t0 :: times))) ∧
    (maxFailures ≤ times.length + 1 → now - t0 ≤ windowSecs →
      rlCheck (rlRecordAll st key (t0 :: times)) key now =
        .error (str "too many authentication failures, try again later")) ∧
    (windowSecs < now - t0 →
      ∃ st2, rlCheck (rlRecordAll st key (t0 :: times)) key now = .ok st2 ∧
        alGet st2 key = none) := by
  have hfirst : rlRecordFailure st key t0 = alSet st key ⟨1, t0⟩ := by
    unfold rlRecordFailure
    rw [hempty]
    simp
  have hall : alGet (rlRecordAll st key (t0 :: times)) key =
      some ⟨1 + times.length, t0⟩ := by
    have : rlRecordAll st key (t0 :: times) =
        rlRecordAll (alSet st key ⟨1, t0⟩) key times := by
      unfold rlRecordAll
      rw [List.foldl_cons, hfirst]
    rw [this]
    exact rlRecordAll_inside key t0 times _ 1 (alGet_set st key ⟨1, t0⟩) hwin
  refine ⟨?_, ?_, ?_⟩
  · intro hlt hnow
    unfold rlCheck
    rw [hall]
    have h1 : ¬ (windowSecs < now - t0) := by omega
    have h2 : ¬ (maxFailures ≤ 1 + times.length) := by
      unfold maxFailures at hlt ⊢
      omega
    simp only [h1, h2, if_false, ite_false]
  · intro hge hnow
    unfold rlCheck
    rw [hall]
    have h1 : ¬ (windowSecs < now - t0) := by omega
    have h2 : maxFailures ≤ 1 + times.length := by
      unfold maxFailures at hge ⊢
      omega
    simp only [h1, h2, if_false, ite_false, if_true, ite_true]
  · intro hgt
    refine ⟨alRemove (rlRecordAll st key (t0 :: times)) key, ?_, ?_⟩
    · unfold rlCheck
      rw [hall]
      simp only [hgt, if_true, ite_true]
    · exact alGet_remove _ _

/-- C9 (witness): with nine extra failures recorded after the first
(ten total) at time 0, a check at time 30 is rejected; with eight extra
(nine total) it is admitted; and any check at time 61 is admitted. -/
theorem c9_rate_limiter_witness :
    rlCheck (rlRecordAll [] (str "k") (0 :: List.replicate 9 0)) (str "k") 30 =
      .error (str "too many authentication failures, try again later") ∧
    rlCheck (rlRecordAll [] (str "k") (0 :: List.replicate 8 0)) (str "k") 30 =
      .ok (rlRecordAll [] (str "k") (0 :: List.replicate 8 0)) ∧
    ∃ st2, rlCheck (rlRecordAll [] (str "k") (0 :: List.replicate 9 0))
        (str "k") 61 = .ok st2 ∧ alGet st2 (str "k") = none := by
  refine ⟨?_, ?_, ?_⟩
  · exact (c9_rate_limiter [] (str "k") 0 30 (List.replicate 9 0) (by rfl)
      (by intro t ht; simp at ht; simp [ht])).2.1 (by decide) (by decide)
  · exact (c9_rate_limiter [] (str "k") 0 30 (List.replicate 8 0) (by rfl)
      (by intro t ht; simp at ht; simp [ht])).1 (by decide) (by decide)
  · exact (c9_rate_limiter [] (str "k") 0 61 (List.replicate 9 0) (by rfl)
      (by intro t ht; simp at ht; simp [ht])).2.2 (by decide)

/-! ### Theorems for claim C2 -/

/-- C2 (code bug): when the VM exists, `pause_vm` succeeds and
`create_fc_snapshot` fails, `checkpoint` surfaces the error having
attempted only pause and snapshot-create — `resume_vm` is never attempted,
so the VM is left paused; the same happens when the snapshot-directory
copy fails.  This contradicts the claim that resume is attempted on every
path after a successful pause. -/
theorem c2_checkpoint_no_resume_on_snapshot_failure :
    (checkpoint ⟨true, true, false, true, true, true⟩ =
      (.error (str "failed to create snapshot"),
        [CkptStep.pause, CkptStep.fcSnapshot]) ∧
      CkptStep.resume ∉ (checkpoint ⟨true, true, false, true, true, true⟩).2) ∧
    (checkpoint ⟨true, true, true, false, true, true⟩ =
      (.error (str "failed to snapshot VM directory"),
        [CkptStep.pause, CkptStep.fcSnapshot, CkptStep.copySnapshot]) ∧
      CkptStep.resume ∉ (checkpoint ⟨true, true, true, false, true, true⟩).2) := by
  refine ⟨⟨by rfl, by decide⟩, ⟨by rfl, by decide⟩⟩

theorem dropCSI_length_le (l : List Char) : (dropCSI l).length ≤ l.length := by
  induction l with
  | nil => simp [dropCSI]
  | cons ch r ih =>
    unfold dropCSI
    split_ifs
    · simp
    · simp
      omega

theorem dropOSC_length_le (l : List Char) : (dropOSC l).length ≤ l.length := by
  induction l with
  | nil => simp [dropOSC]
  | cons ch r ih =>
    unfold dropOSC
    split_ifs
    · simp
    · rcases r with _ | ⟨d, r2⟩
      · simp
      · dsimp only
        split_ifs
        · simp
          omega
        · simp at ih ⊢
          omega
    · simp
      omega

/-! ### Theorem for claim C10 -/

/-- C10 (code bug): `is_exec_marker_line` is not total.  On the line
`NOID_EXEC_aaaaaaaü` (seven ASCII characters then a two-byte character
after the marker), `rest.len()` is 9 so the length guard passes, and the
byte-indexed slice `&rest[..8]` lands inside the two-byte `ü`: the Rust
code panics (byte index 8 is not a char boundary), modelled as `none`. -/
theorem c10_marker_line_panics :
    is_exec_marker_line (str "NOID_EXEC_aaaaaaaü\r\n") = none := by
  decide

/-! ### UTF-8 byte-length helper lemmas -/
theorem length_le_utf8Len (l : List Char) : l.length ≤ utf8Len l := by
  induction l with
  | nil => simp [utf8Len]
  | cons c r ih =>
    have := Char.utf8Size_pos c
    simp only [utf8Len, List.map_cons, List.sum_cons, List.length_cons] at *
    omega

theorem utf8Size_eq_one {c : Char} (h : cp c < 128) : c.utf8Size = 1 := by
  unfold Char.utf8Size
  dsimp only
  have hle : c.val ≤ UInt32.ofNatCore 127 Char.utf8Size.proof_1 := by
    have hv : c.val.toNat < 128 := h
    change c.val.toBitVec ≤ _
    rw [BitVec.le_def]
    have h1 : (UInt32.ofNatCore 127 Char.utf8Size.proof_1).toBitVec.toNat
        = 127 := rfl
    have h2 : c.val.toBitVec.toNat = c.val.toNat := rfl
    omega
  rw [if_pos hle]

theorem utf8Len_eq_length_of_ascii {l : List Char}
    (h : ∀ c ∈ l, cp c < 128) : utf8Len l = l.length := by
  induction l with
  | nil => simp [utf8Len]
  | cons c r ih =>
    have h1 := utf8Size_eq_one (h c (by simp))
    have h2 := ih (fun x hx => h x (by simp [hx]))
    simp only [utf8Len, List.map_cons, List.sum_cons, List.length_cons] at *
    omega

theorem hexdigit_ascii {c : Char} (h : isAsciiHexdigit c = true) :
    cp c < 128 := by
  unfold isAsciiHexdigit at h
  simp only [Bool.or_eq_true, Bool.and_eq_true, decide_eq_true_eq] at h
  omega

theorem digit_ascii {c : Char} (h : isAsciiDigit c = true) : cp c < 128 := by
  unfold isAsciiDigit at h
  simp only [Bool.and_eq_true, decide_eq_true_eq] at h
  omega

theorem byteSplitAt_eq :
    ∀ (l : List Char) (n : Nat) (a b : List Char),
      byteSplitAt n l = some (a, b) → l = a ++ b ∧ utf8Len a = n := by
  intro l
  induction l with
  | nil =>
    intro n a b h
    unfold byteSplitAt at h
    split_ifs at h with h0
    · simp at h
      subst h0
      rcases h with ⟨rfl, rfl⟩
      exact ⟨rfl, rfl⟩
  | cons c r ih =>
    intro n a b h
    unfold byteSplitAt at h
    split_ifs at h with h0 h1
    · simp at h
      rcases h with ⟨rfl, rfl⟩
      subst h0
      exact ⟨rfl, rfl⟩
    · rcases hrec : byteSplitAt (n - c.utf8Size) r with _ | p
      · rw [hrec] at h
        simp at h
      · rw [hrec] at h
        simp at h
        rcases h with ⟨rfl, rfl⟩
        rcases ih (n - c.utf8Size) p.1 p.2 (by rw [hrec]) with ⟨he, hl⟩
        constructor
        · simp [he]
        · simp only [utf8Len, List.map_cons, List.sum_cons] at *
          omega

/-! ### Theorems for claim C7 -/

/-- C7 (amended): whenever the marker test returns (does not panic), a
line is hidden exactly when, after ANSI-strip and trim, it matches
`NOID_EXEC_<8 hex>`, `NOID_EXEC_<8 hex>_END` or
`NOID_EXEC_<8 hex>_EXIT<1-4 digits>`; and the console filter forwards
every non-matching line unchanged, in order.  (Lines on which the test
panics — the byte slice after the prefix splitting a multi-byte
character — crash the reader thread instead; see the counterexample.) -/
theorem c7_marker_filter (line : List Char) (ls : List (List Char)) :
    (∀ b, is_exec_marker_line line = some b → b = specMarkerLine line) ∧
    ((∀ l ∈ ls, (is_exec_marker_line l).isSome) →
      filterCompleteLines ls =
        some ((ls.filter (fun l => !specMarkerLine l)).join)) := by
  have part1 : ∀ (ln : List Char) (b : Bool),
      is_exec_marker_line ln = some b → b = specMarkerLine ln := by
    intro ln b h
    unfold is_exec_marker_line at h
    unfold specMarkerLine
    dsimp only at h ⊢
    rcases hd : dropPfx execMarkerPfx (rustTrim (strip_ansi ln)) with _ | rest
    · rw [hd] at h
      dsimp only at h ⊢
      simp at h
      simp [h]
    · rw [hd] at h
      dsimp only at h ⊢
      by_cases hlen : utf8Len rest < 8
      · rw [if_pos hlen] at h
        simp at h
        have : rest.length < 8 := by
          have := length_le_utf8Len rest
          omega
        simp [h, this]
      · rw [if_neg hlen] at h
        rcases hsplit : byteSplitAt 8 rest with _ | p
        · rw [hsplit] at h
          simp at h
        · rcases p with ⟨idPart, after⟩
          rw [hsplit] at h
          dsimp only at h
          rcases byteSplitAt_eq rest 8 idPart after hsplit with ⟨hre, hlen8⟩
          by_cases hhex : idPart.all isAsciiHexdigit
          · have hasc : ∀ c ∈ idPart, cp c < 128 := by
              intro c hc
              exact hexdigit_ascii (by
                have := List.all_eq_true.mp hhex c hc
                simpa using this)
            have hplen : idPart.length = 8 := by
              rw [← utf8Len_eq_length_of_ascii hasc]
              exact hlen8
            have htake : rest.take 8 = idPart := by
              rw [hre]
              exact List.take_left' hplen
            have hdrop : rest.drop 8 = after := by
              rw [hre]
              exact List.drop_left' hplen
            have hrlen : 8 ≤ rest.length := by
              rw [hre]
              simp
              omega
            rw [if_neg (by simpa using hhex)] at h
            rw [htake, hdrop]
            by_cases hempty : after.isEmpty
            · rw [if_pos hempty] at h
              simp at h
              simp [h, hempty, hrlen, hhex]
            · rw [if_neg hempty] at h
              by_cases hend : after = str "_END"
              · rw [if_pos hend] at h
                simp at h
                simp [h, hempty, hend, hrlen, hhex]
              · rw [if_neg hend] at h
                rcases hexit : dropPfx (str "_EXIT") after with _ | digits
                · rw [hexit] at h
                  simp at h
                  simp [h, hempty, hend, hexit, hrlen, hhex]
                · rw [hexit] at h
                  simp at h
                  subst h
                  simp only [hrlen, hhex, hempty, hend, hexit,
                    decide_eq_true_eq, Bool.true_and, decide_True,
                    Bool.false_or, Bool.or_false]
                  by_cases hdig : digits.all isAsciiDigit
                  · have : utf8Len digits = digits.length := by
                      apply utf8Len_eq_length_of_ascii
                      intro c hc
                      exact digit_ascii (by
                        have := List.all_eq_true.mp hdig c hc
                        simpa using this)
                    simp [this, hdig, hempty, hend]
                  · simp [hdig, hempty, hend]
          · rw [if_pos (by simpa using hhex)] at h
            simp at h
            -- the spec-side hex test also fails: idPart is a prefix of take 8
            have hple : idPart.length ≤ 8 := by
              have := length_le_utf8Len idPart
              omega
            have htake : rest.take 8 =
                idPart ++ after.take (8 - idPart.length) := by
              rw [hre, List.take_append_eq_append_take,
                List.take_of_length_le hple]
            have hspec : (rest.take 8).all isAsciiHexdigit = false := by
              rw [htake]
              rcases List.all_eq_false.mp (Bool.eq_false_iff.mpr hhex)
                with ⟨c, hc, hcf⟩
              apply List.all_eq_false.mpr
              exact ⟨c, by simp [hc], hcf⟩
            simp [h, hspec]
  refine ⟨part1 line, ?_⟩
  intro hsome
  induction ls with
  | nil => simp [filterCompleteLines]
  | cons l r ih =>
    have hl := hsome l (by simp)
    rcases hm : is_exec_marker_line l with _ | bb
    · rw [hm] at hl
      simp at hl
    · have hb := part1 l bb hm
      have ihr := ih (fun x hx => hsome x (by simp [hx]))
      unfold filterCompleteLines
      rw [hm]
      rcases bb with _ | _
      · rw [ihr]
        simp [← hb]
      · rw [ihr]
        simp [← hb]

/-- C7 (counterexample): the line `NOID_EXEC_aaaaaaaé` does not match the
marker pattern, so the claim says it is forwarded unchanged — but the
filter panics on it (the byte slice after the prefix splits the two-byte
`é`), so nothing is forwarded at all. -/
theorem c7_counterexample :
    specMarkerLine (str "NOID_EXEC_aaaaaaaé\r\n") = false ∧
    filterCompleteLines [str "NOID_EXEC_aaaaaaaé\r\n"] = none := by
  exact ⟨by decide, by decide⟩

/-- C7 (witness): the spec's console example — feeding
`hi\r\nNOID_EXEC_abcd1234_END\r\nbye\r\n` forwards `hi\r\n` and
`bye\r\n` and hides the `_END` marker line. -/
theorem c7_marker_filter_witness :
    filterCompleteLines
        (splitInclusiveNl (str "hi\r\nNOID_EXEC_abcd1234_END\r\nbye\r\n")) =
      some (str "hi\r\n" ++ str "bye\r\n") ∧
    true = specMarkerLine (str "NOID_EXEC_abcd1234_END\r\n") := by
  constructor
  · have h := (c7_marker_filter []
        (splitInclusiveNl (str "hi\r\nNOID_EXEC_abcd1234_END\r\nbye\r\n"))).2
      (by decide)
    rw [h]
    decide
  · exact (c7_marker_filter (str "NOID_EXEC_abcd1234_END\r\n") []).1 true
      (by decide)

/-- Lines before the start marker are skipped. -/
theorem pmoGo_skip (mS mE mX : List Char) :
    ∀ (pre rest : List (List Char)) (acc : List (List Char)) (ec : Option Int),
      (∀ l ∈ pre, rustTrim l ≠ mS) →
      pmoGo mS mE mX (pre ++ rest) false acc ec =
        pmoGo mS mE mX rest false acc ec := by
  intro pre
  induction pre with
  | nil => intro rest acc ec _; rfl
  | cons l pre' ih =>
    intro rest acc ec h
    have hl : rustTrim l ≠ mS := h l (by simp)
    have : pmoGo mS mE mX ((l :: pre') ++ rest) false acc ec =
        pmoGo mS mE mX (pre' ++ rest) false acc ec := by
      simp only [pmoGo]
      rw [if_pos (by simp), if_neg hl]
      simp only [List.append_eq]
    rw [this]
    exact ih rest acc ec (fun x hx => h x (by simp [hx]))

/-- Lines between the start marker and the first end-marker line are
collected (exit-marker lines excluded, each updating the exit code). -/
theorem pmoGo_collect (mS mE mX : List Char) (f0 : List Char) (post : List (List Char))
    (hf0 : rustTrim f0 = mE) :
    ∀ (mid : List (List Char)) (acc : List (List Char)) (ec : Option Int),
      (∀ l ∈ mid, rustTrim l ≠ mE) →
      pmoGo mS mE mX (mid ++ f0 :: post) true acc ec =
        some (rustTrim (joinNl (acc ++ mid.filter
          (fun l => (dropPfx mX (rustTrim l)).isNone))), exitFold mX ec mid) := by
  intro mid
  induction mid with
  | nil =>
    intro acc ec _
    simp only [pmoGo]
    rw [if_neg (by simp), if_pos hf0]
    simp [exitFold]
  | cons l mid' ih =>
    intro acc ec h
    have hl : rustTrim l ≠ mE := h l (by simp)
    have hrest : ∀ x ∈ mid', rustTrim x ≠ mE := fun x hx => h x (by simp [hx])
    rcases hx : dropPfx mX (rustTrim l) with _ | r
    · have hstep : pmoGo mS mE mX ((l :: mid') ++ f0 :: post) true acc ec =
          pmoGo mS mE mX (mid' ++ f0 :: post) true (acc ++ [l]) ec := by
        simp only [pmoGo]
        rw [if_neg (by simp), if_neg hl, hx]
        dsimp only
        simp only [List.append_eq]
      rw [hstep, ih (acc ++ [l]) ec hrest]
      have hfil : (l :: mid').filter
          (fun x => (dropPfx mX (rustTrim x)).isNone) =
          l :: mid'.filter (fun x => (dropPfx mX (rustTrim x)).isNone) := by
        simp [List.filter, hx]
      have hfold : exitFold mX ec (l :: mid') = exitFold mX ec mid' := by
        unfold exitFold
        simp [hx]
      rw [hfil, hfold]
      congr 2
      simp
    · have hstep : pmoGo mS mE mX ((l :: mid') ++ f0 :: post) true acc ec =
          pmoGo mS mE mX (mid' ++ f0 :: post) true acc
            (parseI32 (rustTrim r)) := by
        simp only [pmoGo]
        rw [if_neg (by simp), if_neg hl, hx]
        dsimp only
        simp only [List.append_eq]
      rw [hstep, ih acc (parseI32 (rustTrim r)) hrest]
      have hfil : (l :: mid').filter
          (fun x => (dropPfx mX (rustTrim x)).isNone) =
          mid'.filter (fun x => (dropPfx mX (rustTrim x)).isNone) := by
        simp [List.filter, hx]
      have hfold : exitFold mX ec (l :: mid') =
          exitFold mX (parseI32 (rustTrim r)) mid' := by
        unfold exitFold
        simp [hx]
      rw [hfil, hfold]

/-- `parse_marked_output` under the claim's decomposition hypotheses. -/
theorem parse_marked_output_decomp (chunk mS mE mX : List Char)
    (pre mid post : List (List Char))
    (hdecomp : rustLines (normalizeNewlines (strip_ansi chunk)) =
      pre ++ mS :: (mid ++ mE :: post))
    (hpre : ∀ l ∈ pre, rustTrim l ≠ mS)
    (hmid : ∀ l ∈ mid, rustTrim l ≠ mE)
    (hStrim : rustTrim mS = mS) (hEtrim : rustTrim mE = mE) :
    parse_marked_output chunk mS mE mX =
      some (rustTrim (joinNl (mid.filter
        (fun l => (dropPfx mX (rustTrim l)).isNone))), exitFold mX none mid) := by
  unfold parse_marked_output
  dsimp only
  rw [hdecomp]
  rw [pmoGo_skip mS mE mX pre (mS :: (mid ++ mE :: post)) [] none hpre]
  have hstep : pmoGo mS mE mX (mS :: (mid ++ mE :: post)) false [] none =
      pmoGo mS mE mX (mid ++ mE :: post) true [] none := by
    simp only [pmoGo]
    rw [if_pos (by simp), if_pos hStrim]
  rw [hstep]
  rw [pmoGo_collect mS mE mX mE post hEtrim mid [] none hmid]
  simp

/-! ### Theorems for claim C6 -/

/-- C6 (amended): for a serial chunk whose ANSI-stripped, CRLF-normalized
lines decompose as `pre ++ [S] ++ mid ++ [F] ++ post` with no earlier
line trimming to `S` and no line of `mid` trimming to `F`, exec capture
returns the lines of `mid` that are not exit-marker lines, joined with
`\n` and trimmed, with the exit code taken from the last exit-marker line
(possibly none), `timed_out = false`, and `truncated` exactly when that
output exceeds 1 MiB.  When truncated, the first 1 MiB of output is kept
provided the 1 MiB boundary falls on a character boundary; otherwise the
byte slice panics (see the counterexample). -/
theorem c6_exec_capture (chunk mS mE mX : List Char)
    (pre mid post : List (List Char))
    (hdecomp : rustLines (normalizeNewlines (strip_ansi chunk)) =
      pre ++ mS :: (mid ++ mE :: post))
    (hpre : ∀ l ∈ pre, rustTrim l ≠ mS)
    (hmid : ∀ l ∈ mid, rustTrim l ≠ mE)
    (hStrim : rustTrim mS = mS) (hEtrim : rustTrim mE = mE) :
    (utf8Len (rustTrim (joinNl (mid.filter
        (fun l => (dropPfx mX (rustTrim l)).isNone)))) ≤ maxOutputBytes →
      execCaptureChunk chunk mS mE mX =
        .done (rustTrim (joinNl (mid.filter
          (fun l => (dropPfx mX (rustTrim l)).isNone))))
          (exitFold mX none mid) false false) ∧
    (∀ t rest2, maxOutputBytes < utf8Len (rustTrim (joinNl (mid.filter
        (fun l => (dropPfx mX (rustTrim l)).isNone)))) →
      byteSplitAt maxOutputBytes (rustTrim (joinNl (mid.filter
        (fun l => (dropPfx mX (rustTrim l)).isNone)))) = some (t, rest2) →
      execCaptureChunk chunk mS mE mX =
        .done t (exitFold mX none mid) false true) ∧
    (maxOutputBytes < utf8Len (rustTrim (joinNl (mid.filter
        (fun l => (dropPfx mX (rustTrim l)).isNone)))) →
      byteSplitAt maxOutputBytes (rustTrim (joinNl (mid.filter
        (fun l => (dropPfx mX (rustTrim l)).isNone)))) = none →
      execCaptureChunk chunk mS mE mX = .panicTrunc) := by
  have hparse := parse_marked_output_decomp chunk mS mE mX pre mid post
    hdecomp hpre hmid hStrim hEtrim
  refine ⟨?_, ?_, ?_⟩
  · intro hle
    unfold execCaptureChunk
    rw [hparse]
    dsimp only
    rw [if_neg (by omega)]
  · intro t rest2 hgt hsplit
    unfold execCaptureChunk
    rw [hparse]
    dsimp only
    rw [if_pos hgt, hsplit]
  · intro hgt hsplit
    unfold execCaptureChunk
    rw [hparse]
    dsimp only
    rw [if_pos hgt, hsplit]

/-- C6 (witness): a concrete chunk with start marker, one output line,
an exit-marker line carrying code 0, and the end marker. -/
theorem c6_exec_capture_witness :
    execCaptureChunk
        (str "NOID_EXEC_ab12\nhello\nNOID_EXEC_ab12_EXIT0\nNOID_EXEC_ab12_END\n")
        (str "NOID_EXEC_ab12") (str "NOID_EXEC_ab12_END")
        (str "NOID_EXEC_ab12_EXIT") =
      .done (str "hello") (some 0) false false := by
  have h := (c6_exec_capture
      (str "NOID_EXEC_ab12\nhello\nNOID_EXEC_ab12_EXIT0\nNOID_EXEC_ab12_END\n")
      (str "NOID_EXEC_ab12") (str "NOID_EXEC_ab12_END")
      (str "NOID_EXEC_ab12_EXIT")
      [] [str "hello", str "NOID_EXEC_ab12_EXIT0"] []
      (by decide) (by simp) (by decide) (by decide) (by decide)).1 (by decide)
  rw [h]
  decide

/-! ### Auxiliary lemmas for the C6 counterexample -/
theorem utf8Len_append (a b : List Char) :
    utf8Len (a ++ b) = utf8Len a + utf8Len b := by
  simp [utf8Len]

theorem utf8Len_replicate (n : Nat) (c : Char) :
    utf8Len (List.replicate n c) = n * c.utf8Size := by
  induction n with
  | zero => simp [utf8Len]
  | succ k ih =>
    rw [List.replicate_succ]
    have hstep : utf8Len (c :: List.replicate k c) =
        c.utf8Size + utf8Len (List.replicate k c) := by
      simp [utf8Len]
    rw [hstep, ih]
    ring

theorem stripAnsiGo_clean :
    ∀ (fuel : Nat) (l : List Char), l.length ≤ fuel →
      (∀ c ∈ l, c ≠ escChar) → stripAnsiGo fuel l = l := by
  intro fuel
  induction fuel with
  | zero =>
    intro l hl _
    rcases l with _ | _
    · rfl
    · simp at hl
  | succ k ih =>
    intro l hl hc
    rcases l with _ | ⟨c, rest⟩
    · rfl
    · have hcne : c ≠ escChar := hc c (by simp)
      simp only [stripAnsiGo]
      rw [if_neg hcne]
      rw [ih rest (by simp at hl; omega) (fun x hx => hc x (by simp [hx]))]

theorem strip_ansi_clean (l : List Char) (h : ∀ c ∈ l, c ≠ escChar) :
    strip_ansi l = l :=
  stripAnsiGo_clean l.length l (le_refl _) h

theorem replaceCRLF_clean :
    ∀ (l : List Char), (∀ c ∈ l, c ≠ '\r') → replaceCRLF l = l := by
  intro l
  induction l with
  | nil => intro _; rfl
  | cons c r ih =>
    intro h
    rcases r with _ | ⟨d, r2⟩
    · rfl
    · have hcr : c ≠ '\r' := h c (by simp)
      simp only [replaceCRLF]
      rw [if_neg (by simp [hcr])]
      rw [ih (fun x hx => h x (by simp [hx]))]

theorem replaceCR_clean :
    ∀ (l : List Char), (∀ c ∈ l, c ≠ '\r') → replaceCR l = l := by
  intro l
  induction l with
  | nil => intro _; rfl
  | cons c r ih =>
    intro h
    unfold replaceCR at *
    simp only [List.map_cons]
    rw [if_neg (h c (by simp)), ih (fun x hx => h x (by simp [hx]))]

theorem normalizeNewlines_clean (l : List Char) (h : ∀ c ∈ l, c ≠ '\r') :
    normalizeNewlines l = l := by
  unfold normalizeNewlines
  rw [replaceCRLF_clean l h, replaceCR_clean l h]

theorem splitOnNl_append (a r : List Char) (h : ∀ c ∈ a, c ≠ '\n') :
    splitOnNl (a ++ '\n' :: r) = a :: splitOnNl r := by
  induction a with
  | nil =>
    simp only [List.nil_append, splitOnNl]
    simp
  | cons c a' ih =>
    have hc : c ≠ '\n' := h c (by simp)
    simp only [List.cons_append, splitOnNl]
    rw [if_neg hc]
    simp only [List.append_eq]
    rw [ih (fun x hx => h x (by simp [hx]))]

theorem stripTrailCR_clean (l : List Char) (h : l.getLast? ≠ some '\r') :
    stripTrailCR l = l := by
  unfold stripTrailCR
  rw [if_neg h]

theorem rustTrim_eq_self (l : List Char)
    (h1 : ∀ c, l.head? = some c → rustIsWhitespace c = false)
    (h2 : ∀ c, l.getLast? = some c → rustIsWhitespace c = false) :
    rustTrim l = l := by
  unfold rustTrim
  have hleft : trimLeftWS l = l := by
    unfold trimLeftWS
    rcases l with _ | ⟨c, r⟩
    · rfl
    · rw [List.dropWhile_cons, if_neg (by simp [h1 c rfl])]
  rw [hleft]
  have hrev : trimLeftWS l.reverse = l.reverse := by
    unfold trimLeftWS
    rcases hr : l.reverse with _ | ⟨c, r⟩
    · rfl
    · have : l.getLast? = some c := by
        rw [List.getLast?_eq_head?_reverse, hr]
        rfl
      rw [List.dropWhile_cons, if_neg (by simp [h2 c this])]
  rw [hrev, List.reverse_reverse]

theorem byteSplitAt_replicate_one :
    ∀ (k n : Nat) (c : Char) (rest : List Char), c.utf8Size = 1 → k ≤ n →
      byteSplitAt n (List.replicate k c ++ rest) =
        (byteSplitAt (n - k) rest).map
          (fun p => (List.replicate k c ++ p.1, p.2)) := by
  intro k
  induction k with
  | zero =>
    intro n c rest _ _
    simp only [List.replicate_zero, List.nil_append, Nat.sub_zero]
    rcases byteSplitAt n rest with _ | p
    · rfl
    · rfl
  | succ j ih =>
    intro n c rest hsz hk
    rw [List.replicate_succ, List.cons_append]
    have hstep : byteSplitAt n (c :: (List.replicate j c ++ rest)) =
        (byteSplitAt (n - c.utf8Size) (List.replicate j c ++ rest)).map
          (fun p => (c :: p.1, p.2)) := by
      simp only [byteSplitAt]
      rw [if_neg (by omega), if_pos (by rw [hsz]; omega)]
    rw [hstep, hsz, ih (n - 1) c rest hsz (by omega)]
    have heq : n - 1 - j = n - (j + 1) := by omega
    rw [heq]
    rcases hbs : byteSplitAt (n - (j + 1)) rest with _ | p
    · rfl
    · rfl

theorem joinNl_single (l : List Char) : joinNl [l] = l := by
  simp [joinNl, List.intercalate]

/-- C6 (counterexample): a chunk whose captured output is 1048575 `a`s
followed by `éa` (1048578 bytes).  The output exceeds 1 MiB, so the claim
says the first 1 MiB is kept — but byte 1048576 falls inside the two-byte
`é`, so the truncating slice `raw_output[..MAX_OUTPUT_BYTES]` panics
instead of returning a truncated result. -/
theorem c6_counterexample :
    execCaptureChunk
        (str "NOID_EXEC_abcd1234" ++ '\n' ::
          ((List.replicate 1048575 'a' ++ str "éa") ++ '\n' ::
            (str "NOID_EXEC_abcd1234_END" ++ ['\n'])))
        (str "NOID_EXEC_abcd1234") (str "NOID_EXEC_abcd1234_END")
        (str "NOID_EXEC_abcd1234_EXIT") = .panicTrunc ∧
    maxOutputBytes <
      utf8Len (List.replicate 1048575 'a' ++ str "éa") := by
  have hbigcons : List.replicate 1048575 'a' ++ str "éa" =
      'a' :: (List.replicate 1048574 'a' ++ str "éa") := by
    rw [show (1048575 : Nat) = 1048574 + 1 by norm_num, List.replicate_succ,
      List.cons_append]
  have hmem : ∀ c ∈ List.replicate 1048575 'a' ++ str "éa",
      c = 'a' ∨ c ∈ str "éa" := by
    intro c hc
    rcases List.mem_append.mp hc with h | h
    · exact Or.inl (List.eq_of_mem_replicate h)
    · exact Or.inr h
  -- byte length of the captured output
  have hlen : utf8Len (List.replicate 1048575 'a' ++ str "éa") = 1048578 := by
    rw [utf8Len_append, utf8Len_replicate]
    have h1 : Char.utf8Size 'a' = 1 := by decide
    have h2 : utf8Len (str "éa") = 3 := by decide
    rw [h1, h2]
  have hgt : maxOutputBytes <
      utf8Len (List.replicate 1048575 'a' ++ str "éa") := by
    rw [hlen]
    decide
  refine ⟨?_, hgt⟩
  -- the chunk is free of ESC and CR, so ANSI-strip and normalization are
  -- the identity
  have hS : ∀ x ∈ str "NOID_EXEC_abcd1234", x ≠ escChar ∧ x ≠ '\r' := by
    decide
  have hE2 : ∀ x ∈ str "NOID_EXEC_abcd1234_END" ++ ['\n'],
      x ≠ escChar ∧ x ≠ '\r' := by
    decide
  have hEA : ∀ x ∈ str "éa", x ≠ escChar ∧ x ≠ '\r' := by
    decide
  have hsplitmem : ∀ c ∈ str "NOID_EXEC_abcd1234" ++ '\n' ::
      ((List.replicate 1048575 'a' ++ str "éa") ++ '\n' ::
        (str "NOID_EXEC_abcd1234_END" ++ ['\n'])),
      c ≠ escChar ∧ c ≠ '\r' := by
    intro c hc
    rcases List.mem_append.mp hc with h | h
    · exact hS c h
    · rcases List.mem_cons.mp h with h | h
      · subst h
        decide
      · rcases List.mem_append.mp h with h | h
        · rcases hmem c h with h | h
          · subst h
            decide
          · exact hEA c h
        · rcases List.mem_cons.mp h with h | h
          · subst h
            decide
          · exact hE2 c h
  have hnoesc : ∀ c ∈ str "NOID_EXEC_abcd1234" ++ '\n' ::
      ((List.replicate 1048575 'a' ++ str "éa") ++ '\n' ::
        (str "NOID_EXEC_abcd1234_END" ++ ['\n'])), c ≠ escChar :=
    fun c hc => (hsplitmem c hc).1
  have hnocr : ∀ c ∈ str "NOID_EXEC_abcd1234" ++ '\n' ::
      ((List.replicate 1048575 'a' ++ str "éa") ++ '\n' ::
        (str "NOID_EXEC_abcd1234_END" ++ ['\n'])), c ≠ '\r' :=
    fun c hc => (hsplitmem c hc).2
  have hclean : rustLines (normalizeNewlines (strip_ansi
      (str "NOID_EXEC_abcd1234" ++ '\n' ::
        ((List.replicate 1048575 'a' ++ str "éa") ++ '\n' ::
          (str "NOID_EXEC_abcd1234_END" ++ ['\n']))))) =
      [] ++ str "NOID_EXEC_abcd1234" ::
        ([List.replicate 1048575 'a' ++ str "éa"] ++
          str "NOID_EXEC_abcd1234_END" :: []) := by
    rw [strip_ansi_clean _ hnoesc, normalizeNewlines_clean _ hnocr]
    -- split on the three newlines
    have hs1 : splitOnNl (str "NOID_EXEC_abcd1234" ++ '\n' ::
        ((List.replicate 1048575 'a' ++ str "éa") ++ '\n' ::
          (str "NOID_EXEC_abcd1234_END" ++ ['\n']))) =
        str "NOID_EXEC_abcd1234" ::
          splitOnNl ((List.replicate 1048575 'a' ++ str "éa") ++ '\n' ::
            (str "NOID_EXEC_abcd1234_END" ++ ['\n'])) :=
      splitOnNl_append _ _ (by decide)
    have hs2 : splitOnNl ((List.replicate 1048575 'a' ++ str "éa") ++ '\n' ::
        (str "NOID_EXEC_abcd1234_END" ++ ['\n'])) =
        (List.replicate 1048575 'a' ++ str "éa") ::
          splitOnNl (str "NOID_EXEC_abcd1234_END" ++ ['\n']) := by
      apply splitOnNl_append
      intro c hc
      rcases hmem c hc with h | h
      · subst h
        decide
      · exact (by decide : ∀ x ∈ str "éa", x ≠ '\n') c h
    have hs3 : splitOnNl (str "NOID_EXEC_abcd1234_END" ++ ['\n']) =
        str "NOID_EXEC_abcd1234_END" :: splitOnNl [] := by
      have : str "NOID_EXEC_abcd1234_END" ++ ['\n'] =
          str "NOID_EXEC_abcd1234_END" ++ '\n' :: [] := rfl
      rw [this]
      exact splitOnNl_append _ _ (by decide)
    unfold rustLines
    rw [hs1, hs2, hs3]
    have hs4 : splitOnNl ([] : List Char) = [[]] := rfl
    rw [hs4]
    dsimp only
    have hlast : (str "NOID_EXEC_abcd1234" ::
        ((List.replicate 1048575 'a' ++ str "éa") ::
          (str "NOID_EXEC_abcd1234_END" :: [([] : List Char)]))).getLast? =
        some ([] : List Char) := by
      rfl
    rw [if_pos hlast]
    simp only [List.dropLast]
    have hg : (List.replicate 1048575 'a' ++ str "éa").getLast? ≠
        some '\r' := by
      rw [List.getLast?_append_of_ne_nil _ (by decide)]
      decide
    rw [List.map_cons, List.map_cons, List.map_cons, List.map_nil]
    have ht1 : stripTrailCR (str "NOID_EXEC_abcd1234") =
        str "NOID_EXEC_abcd1234" :=
      stripTrailCR_clean (str "NOID_EXEC_abcd1234") (by decide)
    have ht2 : stripTrailCR (List.replicate 1048575 'a' ++ str "éa") =
        List.replicate 1048575 'a' ++ str "éa" :=
      stripTrailCR_clean (List.replicate 1048575 'a' ++ str "éa") hg
    have ht3 : stripTrailCR (str "NOID_EXEC_abcd1234_END") =
        str "NOID_EXEC_abcd1234_END" :=
      stripTrailCR_clean (str "NOID_EXEC_abcd1234_END") (by decide)
    rw [ht1, ht2, ht3]
    rfl
  -- trimming the big line is the identity, and it is not the end marker
  have htrimbig : rustTrim (List.replicate 1048575 'a' ++ str "éa") =
      List.replicate 1048575 'a' ++ str "éa" := by
    apply rustTrim_eq_self
    · intro c hc
      rw [hbigcons, List.head?_cons] at hc
      have hca : c = 'a' := (Option.some.inj hc).symm
      subst hca
      decide
    · intro c hc
      rw [List.getLast?_append_of_ne_nil _ (by decide)] at hc
      rw [show (str "éa").getLast? = some 'a' from by decide] at hc
      have hca : c = 'a' := (Option.some.inj hc).symm
      subst hca
      decide
  have hmid : ∀ l ∈ [List.replicate 1048575 'a' ++ str "éa"],
      rustTrim l ≠ str "NOID_EXEC_abcd1234_END" := by
    intro l hl
    rcases List.mem_singleton.mp hl with rfl
    rw [htrimbig]
    intro h
    have hlen2 := congrArg List.length h
    rw [List.length_append, List.length_replicate] at hlen2
    rw [show (str "éa").length = 2 from by decide] at hlen2
    rw [show (str "NOID_EXEC_abcd1234_END").length = 22 from by decide]
      at hlen2
    omega
  -- the big line is not an exit-marker line
  have hnopfx : dropPfx (str "NOID_EXEC_abcd1234_EXIT")
      (rustTrim (List.replicate 1048575 'a' ++ str "éa")) = none := by
    rw [htrimbig, hbigcons]
    have hp : (str "NOID_EXEC_abcd1234_EXIT").isPrefixOf
        ('a' :: (List.replicate 1048574 'a' ++ str "éa")) = false := by
      have hN : str "NOID_EXEC_abcd1234_EXIT" =
          'N' :: str "OID_EXEC_abcd1234_EXIT" := rfl
      rw [hN]
      rw [show List.isPrefixOf ('N' :: str "OID_EXEC_abcd1234_EXIT")
          ('a' :: (List.replicate 1048574 'a' ++ str "éa")) =
          (('N' == 'a') &&
            List.isPrefixOf (str "OID_EXEC_abcd1234_EXIT")
              (List.replicate 1048574 'a' ++ str "éa")) from rfl]
      rw [show (('N' == 'a') : Bool) = false from by decide]
      rw [Bool.false_and]
    unfold dropPfx
    rw [if_neg ?hcontr]
    case hcontr =>
      intro hcontr
      rw [hp] at hcontr
      exact absurd hcontr (by decide)
  -- the truncating slice panics
  have hsplitnone : byteSplitAt maxOutputBytes
      (List.replicate 1048575 'a' ++ str "éa") = none := by
    rw [byteSplitAt_replicate_one 1048575 maxOutputBytes 'a' (str "éa")
      (by decide) (by decide)]
    have : maxOutputBytes - 1048575 = 1 := by decide
    rw [this]
    have : byteSplitAt 1 (str "éa") = none := by decide
    rw [this]
    rfl
  have h := (c6_exec_capture
      (str "NOID_EXEC_abcd1234" ++ '\n' ::
        ((List.replicate 1048575 'a' ++ str "éa") ++ '\n' ::
          (str "NOID_EXEC_abcd1234_END" ++ ['\n'])))
      (str "NOID_EXEC_abcd1234") (str "NOID_EXEC_abcd1234_END")
      (str "NOID_EXEC_abcd1234_EXIT")
      [] [List.replicate 1048575 'a' ++ str "éa"] []
      hclean (by simp) hmid (by decide) (by decide)).2.2
  have hfil : ([List.replicate 1048575 'a' ++ str "éa"]).filter
      (fun l => (dropPfx (str "NOID_EXEC_abcd1234_EXIT")
        (rustTrim l)).isNone) = [List.replicate 1048575 'a' ++ str "éa"] := by
    have hcond : (dropPfx (str "NOID_EXEC_abcd1234_EXIT")
        (rustTrim (List.replicate 1048575 'a' ++ str "éa"))).isNone = true := by
      rw [hnopfx]
      rfl
    rw [List.filter_cons]
    rw [hcond, if_pos rfl, List.filter_nil]
  have hraw : rustTrim (joinNl (([List.replicate 1048575 'a' ++
      str "éa"]).filter (fun l => (dropPfx (str "NOID_EXEC_abcd1234_EXIT")
        (rustTrim l)).isNone))) = List.replicate 1048575 'a' ++ str "éa" := by
    rw [hfil, joinNl_single, htrimbig]
  exact h (by rw [hraw]; exact hgt) (by rw [hraw]; exact hsplitnone)

/-- Characters may equal only when their code points do. -/
theorem cp_ne_of_ne (c : Char) (n : Nat) (h : cp c ≠ n) :
    ∀ d : Char, cp d = n → c ≠ d := by
  intro d hd he
  subst he
  exact h hd

/-- A verbatim-class character is not a quote, not a backslash, and not
special to the lexer. -/
theorem shellVerbatimChar_props (c : Char)
    (h : shellVerbatimChar c = true) :
    c ≠ quoteChar ∧ c ≠ bslashChar ∧ shSpecial c = false := by
  unfold shellVerbatimChar rustIsAlphanumeric at h
  simp only [Bool.or_eq_true, Bool.and_eq_true, decide_eq_true_eq,
    beq_iff_eq] at h
  have h39 : cp c ≠ 39 := by omega
  have h92 : cp c ≠ 92 := by omega
  refine ⟨cp_ne_of_ne c 39 h39 quoteChar rfl,
    cp_ne_of_ne c 92 h92 bslashChar rfl, ?_⟩
  rw [Bool.eq_false_iff]
  intro hs
  unfold shSpecial at hs
  simp only [Bool.or_eq_true, beq_iff_eq] at hs
  omega

/-- ASCII agreement: below code point 128, the Unicode alphanumeric test
coincides with the ASCII one. -/
theorem rustIsAlphanumeric_ascii (c : Char) (h : cp c < 128) :
    rustIsAlphanumeric c = isAsciiAlnum c := by
  have hiff : rustIsAlphanumeric c = true ↔ isAsciiAlnum c = true := by
    unfold rustIsAlphanumeric isAsciiAlnum
    simp only [Bool.or_eq_true, Bool.and_eq_true, decide_eq_true_eq,
      beq_iff_eq]
    omega
  cases hr : rustIsAlphanumeric c
  · cases ha : isAsciiAlnum c
    · rfl
    · rw [hr, ha] at hiff
      simp at hiff
  · cases ha : isAsciiAlnum c
    · rw [hr, ha] at hiff
      simp at hiff
    · rfl

/-- Unfolding step: a character under an unquoted backslash is literal. -/
theorem lexSh_esc_cons (c : Char) (r : List Char) :
    lexSh false true (c :: r) =
      (lexSh false false r).map (fun w => c :: w) := rfl

/-- Unfolding step: a quote inside quotes closes them. -/
theorem lexSh_inQ_quote (r : List Char) :
    lexSh true false (quoteChar :: r) = lexSh false false r := rfl

/-- Unfolding step: any other character inside quotes is literal. -/
theorem lexSh_inQ_cons (c : Char) (r : List Char) (h : c ≠ quoteChar) :
    lexSh true false (c :: r) =
      (lexSh true false r).map (fun w => c :: w) := by
  have hstep : lexSh true false (c :: r) =
      if c = quoteChar then lexSh false false r
      else (lexSh true false r).map (fun w => c :: w) := rfl
  rw [hstep, if_neg h]

/-- Unfolding step: an unquoted quote opens a quoted span. -/
theorem lexSh_unq_quote (r : List Char) :
    lexSh false false (quoteChar :: r) = lexSh true false r := rfl

/-- Unfolding step: an unquoted non-special character is literal. -/
theorem lexSh_unq_cons (c : Char) (r : List Char) (hq : c ≠ quoteChar)
    (hb : c ≠ bslashChar) (hs : shSpecial c = false) :
    lexSh false false (c :: r) =
      (lexSh false false r).map (fun w => c :: w) := by
  have hstep : lexSh false false (c :: r) =
      if c = quoteChar then lexSh true false r
      else if c = bslashChar then lexSh false true r
      else if shSpecial c then none
      else (lexSh false false r).map (fun w => c :: w) := rfl
  rw [hstep, if_neg hq, if_neg hb, if_neg (by simp [hs])]

/-- Unfolding step: the four-character escape produced for an embedded
quote reads back, inside quotes, as one literal quote. -/
theorem lexSh_quote_escape (x : List Char) :
    lexSh true false (quoteChar :: bslashChar :: quoteChar :: quoteChar ::
      x) = (lexSh true false x).map (fun w => quoteChar :: w) := rfl

/-- All-literal strings lex to themselves. -/
theorem lexSh_literal :
    ∀ (s : List Char), (∀ c ∈ s, shellVerbatimChar c = true) →
      lexSh false false s = some s := by
  intro s
  induction s with
  | nil => intro _; rfl
  | cons c r ih =>
    intro h
    rcases shellVerbatimChar_props c (h c (by simp)) with ⟨hq, hb, hs⟩
    rw [lexSh_unq_cons c r hq hb hs, ih (fun x hx => h x (by simp [hx]))]
    rfl

/-- Inside single quotes, the quoted body followed by a closing quote
reads back as the original characters. -/
theorem lexSh_quoted :
    ∀ (s rest : List Char),
      lexSh true false (quoteBody s ++ quoteChar :: rest) =
        (lexSh false false rest).map (fun w => s ++ w) := by
  intro s
  induction s with
  | nil =>
    intro rest
    show lexSh true false (quoteChar :: rest) = _
    rw [lexSh_inQ_quote]
    rcases hr : lexSh false false rest with _ | w
    · rfl
    · rfl
  | cons c r ih =>
    intro rest
    by_cases hc : c = quoteChar
    · subst hc
      have hbody : quoteBody (quoteChar :: r) ++ quoteChar :: rest =
          quoteChar :: bslashChar :: quoteChar :: quoteChar ::
            (quoteBody r ++ quoteChar :: rest) := by
        unfold quoteBody
        rw [List.flatMap_cons, if_pos rfl]
        rfl
      rw [hbody, lexSh_quote_escape, ih rest]
      rcases hr : lexSh false false rest with _ | w
      · rfl
      · rfl
    · have hbody : quoteBody (c :: r) ++ quoteChar :: rest =
          c :: (quoteBody r ++ quoteChar :: rest) := by
        unfold quoteBody
        rw [List.flatMap_cons, if_neg hc]
        rfl
      rw [hbody, lexSh_inQ_cons c _ hc, ih rest]
      rcases hr : lexSh false false rest with _ | w
      · rfl
      · rfl

/-- Each source character contributes at least one character to the
quoted body. -/
theorem quoteBody_length_ge (s : List Char) :
    s.length ≤ (quoteBody s).length := by
  induction s with
  | nil => simp [quoteBody]
  | cons c r ih =>
    unfold quoteBody at *
    rw [List.flatMap_cons]
    by_cases hc : c = quoteChar
    · rw [if_pos hc]
      simp only [List.length_append, List.length_cons]
      omega
    · rw [if_neg hc]
      simp only [List.length_append, List.length_cons]
      omega

/-- A verbatim-class ASCII character matches the claim's character
class, and conversely. -/
theorem verbatim_iff_class (c : Char) (h : cp c < 128) :
    shellVerbatimChar c = true ↔
      (isAsciiAlnum c || cp c == 95 || cp c == 46 || cp c == 47 ||
        cp c == 45) = true := by
  unfold shellVerbatimChar rustIsAlphanumeric isAsciiAlnum
  simp only [Bool.or_eq_true, Bool.and_eq_true, decide_eq_true_eq,
    beq_iff_eq]
  omega

/-! ### Theorems for claim C1 -/

/-- C1 (counterexample): `é` (U+00E9) is Unicode-alphanumeric, so
`shell_escape` returns it verbatim, although it does not match the ASCII
class `A-Za-z0-9` plus underscore, dot, slash, dash — the claim says any
such string is returned wrapped in single quotes. -/
theorem c1_counterexample :
    shell_escape (str "é") = some (str "é") ∧
    matchesC1Class (str "é") = false ∧
    some (str "é") ≠
      some (quoteChar :: quoteBody (str "é") ++ [quoteChar]) := by
  refine ⟨by decide, by decide, by decide⟩

/-- C1 (amended): `shell_escape` rejects NUL; for ASCII strings it
returns the string verbatim exactly when it is non-empty and matches the
claim's class (for non-ASCII strings the verbatim test is Rust's Unicode
alphanumeric test instead); otherwise it wraps the string in single
quotes, each embedded quote becoming quote-backslash-quote-quote; and for
every NUL-free string the escaped form is read back by a POSIX shell
lexer as exactly one literal word equal to the original string — no
injection. -/
theorem c1_shell_escape (s : List Char) :
    (s.contains nulChar = true → shell_escape s = none) ∧
    ((∀ c ∈ s, cp c < 128) → s.contains nulChar = false →
      (shell_escape s = some s ↔ matchesC1Class s = true)) ∧
    (s.contains nulChar = false →
      (s.isEmpty = true ∨ s.all shellVerbatimChar = false) →
      shell_escape s = some (quoteChar :: quoteBody s ++ [quoteChar])) ∧
    (s.contains nulChar = false →
      ∃ e, shell_escape s = some e ∧ lexSh false false e = some s) := by
  refine ⟨?_, ?_, ?_, ?_⟩
  · intro h
    unfold shell_escape
    rw [if_pos h]
  · intro hascii hnul
    unfold shell_escape
    rw [if_neg (fun hcontra => absurd (hnul ▸ hcontra) (by decide))]
    by_cases he : s.isEmpty
    · have hs : s = [] := by
        rcases s with _ | _
        · rfl
        · simp at he
      subst hs
      decide
    · rw [if_neg he]
      by_cases hall : s.all shellVerbatimChar
      · rw [if_pos hall]
        constructor
        · intro _
          unfold matchesC1Class
          rw [Bool.and_eq_true]
          refine ⟨by simp [he], ?_⟩
          rw [List.all_eq_true]
          intro c hc
          exact (verbatim_iff_class c (hascii c hc)).mp
            (List.all_eq_true.mp hall c hc)
        · intro _
          rfl
      · rw [if_neg hall]
        constructor
        · intro hsome
          exfalso
          have heq := Option.some.inj hsome
          have hlen := congrArg List.length heq
          have hge := quoteBody_length_ge s
          simp only [List.length_cons, List.length_append,
            List.length_singleton] at hlen
          omega
        · intro hclass
          exfalso
          apply hall
          unfold matchesC1Class at hclass
          rw [Bool.and_eq_true] at hclass
          rw [List.all_eq_true]
          intro c hc
          exact (verbatim_iff_class c (hascii c hc)).mpr
            (List.all_eq_true.mp hclass.2 c hc)
  · intro hnul hcase
    unfold shell_escape
    rw [if_neg (fun hcontra => absurd (hnul ▸ hcontra) (by decide))]
    rcases hcase with he | hallf
    · have hs : s = [] := by
        rcases s with _ | _
        · rfl
        · simp at he
      subst hs
      rfl
    · by_cases he : s.isEmpty
      · exfalso
        have hs : s = [] := by
          rcases s with _ | _
          · rfl
          · simp at he
        subst hs
        simp at hallf
      · rw [if_neg he, if_neg (by simp [hallf])]
  · intro hnul
    unfold shell_escape
    rw [if_neg (fun hcontra => absurd (hnul ▸ hcontra) (by decide))]
    by_cases he : s.isEmpty
    · have hs : s = [] := by
        rcases s with _ | _
        · rfl
        · simp at he
      subst hs
      exact ⟨[quoteChar, quoteChar], by rfl, by rfl⟩
    · rw [if_neg he]
      by_cases hall : s.all shellVerbatimChar
      · rw [if_pos hall]
        exact ⟨s, rfl, lexSh_literal s (List.all_eq_true.mp hall)⟩
      · rw [if_neg hall]
        refine ⟨quoteChar :: quoteBody s ++ [quoteChar], rfl, ?_⟩
        rw [List.cons_append, lexSh_unq_quote]
        have hsingle : quoteBody s ++ [quoteChar] =
            quoteBody s ++ quoteChar :: [] := rfl
        rw [hsingle, lexSh_quoted s []]
        show (some ([] : List Char)).map (fun w => s ++ w) = some s
        simp

/-- C1 (witness): a space forces quoting; a shell-injection attempt is
read back literally as one word; a plain word is returned verbatim. -/
theorem c1_shell_escape_witness :
    shell_escape (str "a b") =
      some (quoteChar :: quoteBody (str "a b") ++ [quoteChar]) ∧
    (∃ e, shell_escape (str "; rm -rf /") = some e ∧
      lexSh false false e = some (str "; rm -rf /")) ∧
    shell_escape (str "hello") = some (str "hello") := by
  refine ⟨?_, ?_, ?_⟩
  · exact (c1_shell_escape (str "a b")).2.2.1 (by decide)
      (Or.inr (by decide))
  · exact (c1_shell_escape (str "; rm -rf /")).2.2.2 (by decide)
  · exact ((c1_shell_escape (str "hello")).2.1 (by decide)
      (by decide)).mpr (by decide)

end Noid
